import Mathlib

/-!
Shallow embedding of the card-game lobby server (`src/v0.01/server.js`)
together with proofs about its session state machine, dealing algorithm and
per-player view projection.

Cards are the wire strings of the source (`"AS"`, `"10H"`, ...); games mirror
the in-memory game objects `{ id, hostId, status, players, hands }`.  The
source's `Math.random()` draws are modelled by an oracle `r : Nat → Nat`
reduced modulo the size of each random range, which reaches exactly the same
values as `Math.floor(Math.random() * n)`.
-/

namespace CardGame

/-- A player record `{ id, name, position }` from `createGame`/`joinGame`. -/
structure Player where
  id : String
  name : String
  position : Nat
deriving DecidableEq, Repr

/-- A game object `{ id, hostId, status, players, hands, createdAt }`.  The
`hands` object (string-keyed) is modelled as an association list in insertion
order, which is how JavaScript enumerates string keys. -/
structure Game where
  id : String
  hostId : String
  status : String
  players : List Player
  hands : List (String × List String)
  createdAt : Nat
deriving DecidableEq, Repr

/-! ### Deck construction (`buildDeck`) -/

/-- The suit codes of `buildDeck`, in source order. -/
def suits : List String := ["S", "H", "D", "C"]

/-- The rank strings of `buildDeck`, in source order. -/
def ranks : List String := ["A", "K", "Q", "J", "10", "9", "8", "7", "6", "5", "4", "3", "2"]

/-- `buildDeck()`: for each suit, for each rank, push `` `${rank}${suit}` ``. -/
def buildDeck : List String :=
  (suits.map (fun suit => ranks.map (fun rank => rank ++ suit))).flatten

/-! ### Fisher–Yates shuffle (`shuffle`) -/

/-- Swap the entries at positions `i` and `j`
(`[array[i], array[j]] = [array[j], array[i]]`); in the source both indices
are always in bounds, and out-of-bounds indices leave the list unchanged. -/
def listSwap (l : List α) (i j : Nat) : List α :=
  match l[i]?, l[j]? with
  | some a, some b => (l.set i b).set j a
  | _, _ => l

/-- The loop of `shuffle`: at index `i+1` draw `j = ⌊random·(i+2)⌋` (modelled
as `r (i+1) % (i+2)`, which ranges over the same set `0..i+1`), swap, and
continue downward. -/
def shuffleAux (r : Nat → Nat) : List α → Nat → List α
  | l, 0 => l
  | l, i + 1 => shuffleAux r (listSwap l (i + 1) (r (i + 1) % (i + 2))) i

/-- `shuffle(array)`: Fisher–Yates from index `length − 1` down to `1`. -/
def shuffle (l : List α) (r : Nat → Nat) : List α :=
  shuffleAux r l (l.length - 1)

/-- Prepending the `j`-th element to the list with position `j` overwritten is
a permutation of prepending the overwriting value. -/
theorem get_cons_set_perm :
    ∀ (xs : List α) (j : Nat) (x : α) (hj : j < xs.length),
      (xs.get ⟨j, hj⟩ :: xs.set j x).Perm (x :: xs) := by
  intro xs
  induction xs with
  | nil => intro j x hj; simp at hj
  | cons y ys ih =>
    intro j x hj
    cases j with
    | zero => simpa using List.Perm.swap x y ys
    | succ k =>
      have hk : k < ys.length := by simpa using hj
      have h1 : (ys.get ⟨k, hk⟩ :: y :: ys.set k x).Perm (y :: ys.get ⟨k, hk⟩ :: ys.set k x) :=
        List.Perm.swap _ _ _
      have h2 : (y :: ys.get ⟨k, hk⟩ :: ys.set k x).Perm (y :: x :: ys) :=
        List.Perm.cons y (ih k x hk)
      have h3 : (y :: x :: ys).Perm (x :: y :: ys) := List.Perm.swap _ _ _
      simpa using (h1.trans h2).trans h3

/-- A two-position swap of list entries is a permutation. -/
theorem set_set_swap_perm :
    ∀ (l : List α) (i j : Nat) (hi : i < l.length) (hj : j < l.length),
      ((l.set i (l.get ⟨j, hj⟩)).set j (l.get ⟨i, hi⟩)).Perm l := by
  intro l
  induction l with
  | nil => intro i j hi; simp at hi
  | cons x xs ih =>
    intro i j hi hj
    cases i with
    | zero =>
      cases j with
      | zero => simp
      | succ k =>
        have hk : k < xs.length := by simpa using hj
        simpa using get_cons_set_perm xs k x hk
    | succ m =>
      have hm : m < xs.length := by simpa using hi
      cases j with
      | zero =>
        simpa using get_cons_set_perm xs m x hm
      | succ k =>
        have hk : k < xs.length := by simpa using hj
        simpa using List.Perm.cons x (ih m k hm hk)

/-- `listSwap` is a permutation for every pair of indices. -/
theorem listSwap_perm (l : List α) (i j : Nat) : (listSwap l i j).Perm l := by
  unfold listSwap
  cases hA : l[i]? with
  | none => simp
  | some a =>
    cases hB : l[j]? with
    | none => simp
    | some b =>
      have hi : i < l.length := (List.getElem?_eq_some_iff.mp hA).1
      have hj : j < l.length := (List.getElem?_eq_some_iff.mp hB).1
      have ha : a = l.get ⟨i, hi⟩ := by
        have := (List.getElem?_eq_some_iff.mp hA).2
        simp [List.get_eq_getElem, this]
      have hb : b = l.get ⟨j, hj⟩ := by
        have := (List.getElem?_eq_some_iff.mp hB).2
        simp [List.get_eq_getElem, this]
      subst ha hb
      exact set_set_swap_perm l i j hi hj

/-- Every pass of the shuffle loop permutes the list. -/
theorem shuffleAux_perm (r : Nat → Nat) :
    ∀ (n : Nat) (l : List α), (shuffleAux r l n).Perm l := by
  intro n
  induction n with
  | zero => intro l; simp [shuffleAux]
  | succ i ih =>
    intro l
    exact (ih _).trans (listSwap_perm l (i + 1) (r (i + 1) % (i + 2)))

/-- `shuffle` returns a permutation of its input. -/
theorem shuffle_perm (l : List α) (r : Nat → Nat) : (shuffle l r).Perm l :=
  shuffleAux_perm r (l.length - 1) l

/-! ### Session operations (`createGame`, `joinGame`, `deal`, API handlers) -/

/-- The error responses of `handleApi`, by message. -/
inductive ApiError where
  /-- `'Name is required'` (HTTP 400). -/
  | nameRequired
  /-- `'Game not found'` (HTTP 404). -/
  | gameNotFound
  /-- `'Game already started'` (HTTP 400). -/
  | alreadyStarted
  /-- `'Game is full'` (HTTP 400). -/
  | gameFull
  /-- `'Only the host can start the game'` (HTTP 403). -/
  | notHost
  /-- `'Need exactly 4 players to start'` (HTTP 400). -/
  | needFourPlayers
  /-- `'You are not part of this game'` (HTTP 403). -/
  | notInGame
deriving DecidableEq, Repr

/-- `createGame(name)`: the creator gets a fresh id and seat `0`, becomes host,
and the game starts in the `'lobby'` status with no hands.  The generated code,
fresh UUID and `Date.now()` are environment inputs, passed as parameters. -/
def createGame (name : String) (freshId : String) (code : String) (now : Nat) :
    Game × Player :=
  let player : Player := { id := freshId, name := name, position := 0 }
  ({ id := code, hostId := player.id, status := "lobby", players := [player],
     hands := [], createdAt := now }, player)

/-- `joinGame(game, name)`: seat the newcomer at the first free position of
`[0,1,2,3]` and push them onto `players`.  When every seat is taken the
source's `available` is `undefined`; that case is modelled as the impossible
seat `4` and is unreachable behind the join handler's length guard. -/
def joinGame (g : Game) (name : String) (freshId : String) : Game × Player :=
  let existingPositions := g.players.map Player.position
  let available := ([0, 1, 2, 3].find? (fun pos => !(existingPositions.contains pos))).getD 4
  let player : Player := { id := freshId, name := name, position := available }
  ({ g with players := g.players ++ [player] }, player)

/-- JavaScript object update `m[k] = v`: overwrite in place if the key exists,
otherwise append (string keys enumerate in insertion order). -/
def objSet (m : List (String × α)) (k : String) (v : α) : List (String × α) :=
  if m.any (fun kv => kv.1 == k) then
    m.map (fun kv => if kv.1 == k then (k, v) else kv)
  else m ++ [(k, v)]

/-- The players sort of `deal`: `players.slice().sort((a, b) => a.position - b.position)`. -/
def playerLe (a b : Player) : Prop := a.position ≤ b.position

instance : DecidableRel playerLe := fun a b => Nat.decLe a.position b.position

instance : IsTotal Player playerLe := ⟨fun a b => Nat.le_total a.position b.position⟩

instance : IsTrans Player playerLe := ⟨fun _ _ _ => Nat.le_trans⟩

/-- A comparator sort of the players by ascending seat position (the source
uses the stable built-in sort; with distinct positions any stable
comparator-respecting sort produces this list). -/
def sortPlayers (ps : List Player) : List Player := List.insertionSort playerLe ps

/-- The `forEach((player, idx) => ...)` of `deal`: hand the player at index
`idx` the slice `deck.slice(idx * 13, idx * 13 + 13)`. -/
def dealHands (deck : List String) : List Player → Nat → List (String × List String) →
    List (String × List String)
  | [], _, m => m
  | p :: rest, idx, m =>
    dealHands deck rest (idx + 1) (objSet m p.id ((deck.drop (idx * 13)).take 13))

/-- `deal(game)`: build and shuffle a fresh deck, reset `hands`, hand the
player at sorted index `idx` the slice `deck.slice(idx*13, idx*13+13)`, and set
`status` to `'started'`. -/
def deal (g : Game) (r : Nat → Nat) : Game :=
  let deck := shuffle buildDeck r
  let newHands := dealHands deck (sortPlayers g.players) 0 []
  { g with hands := newHands, status := "started" }

/-- JavaScript `String.prototype.trim`, modelled character-wise (the core
`String.trim` does not reduce in the kernel). -/
def jsTrim (s : String) : String :=
  String.mk (((s.data.dropWhile Char.isWhitespace).reverse.dropWhile Char.isWhitespace).reverse)

/-- JavaScript `String.prototype.toUpperCase` on the ASCII codes used here,
modelled character-wise. -/
def jsToUpperCase (s : String) : String := String.mk (s.data.map Char.toUpper)

/-- The `/api/game/join` handler after a successful lookup: reject when the
status is not `'lobby'`, when the trimmed name is empty, or when four players
are already seated; otherwise run `joinGame`. -/
def handleJoin (g : Game) (rawName : String) (freshId : String) :
    Except ApiError (Game × Player) :=
  let name := jsTrim rawName
  if g.status ≠ "lobby" then .error .alreadyStarted
  else if name = "" then .error .nameRequired
  else if 4 ≤ g.players.length then .error .gameFull
  else .ok (joinGame g name freshId)

/-- A sequence of join requests against one game: stop at the first failure,
thread the updated game through on success. -/
def applyJoins (g : Game) : List (String × String) → Except ApiError Game
  | [] => .ok g
  | (nm, fid) :: rest =>
    match handleJoin g nm fid with
    | .ok gp => applyJoins gp.1 rest
    | .error e => .error e

/-- The `/api/game/start` handler after a successful lookup: reject when the
requester is not the host or when the player count is not exactly 4; otherwise
run `deal`.  (The source performs no status check here.) -/
def handleStart (g : Game) (playerId : String) (r : Nat → Nat) : Except ApiError Game :=
  if g.hostId ≠ playerId then .error .notHost
  else if g.players.length ≠ 4 then .error .needFourPlayers
  else .ok (deal g r)

/-! ### Session-store lookup, per endpoint -/

/-- The join handler's code normalization: `gameId.toString().trim().toUpperCase()`. -/
def normalizeCode (raw : String) : String := jsToUpperCase (jsTrim raw)

/-- Lookup as performed by `/api/game/join`: `games.get` of the normalized code. -/
def lookupJoinCode (games : List (String × Game)) (raw : String) : Option Game :=
  games.lookup (normalizeCode raw)

/-- Lookup as performed by `/api/game/start`: `games.get(gameId)` on the raw body value. -/
def lookupStartCode (games : List (String × Game)) (raw : String) : Option Game :=
  games.lookup raw

/-- Lookup as performed by `/api/game/state`: `games.get(gameId)` on the raw query value. -/
def lookupStateCode (games : List (String × Game)) (raw : String) : Option Game :=
  games.lookup raw

/-! ### Card comparator and view projection -/

/-- `splitCard(card)`: last character as suit, remaining prefix as rank,
returned `(rank, suit)`. -/
def splitCard (card : String) : String × String :=
  (card.dropRight 1, card.takeRight 1)

/-- The `suitOrder` object `{ S: 0, H: 1, D: 2, C: 3 }`.  Off-domain suits
read `undefined` in the source (NaN arithmetic downstream); modelled as `0`,
and every theorem below only evaluates it on deck cards. -/
def suitOrderVal (s : String) : Int :=
  if s = "S" then 0
  else if s = "H" then 1
  else if s = "D" then 2
  else if s = "C" then 3
  else 0

/-- The `rankOrder` array, verbatim. -/
def rankOrder : List String :=
  ["A", "K", "Q", "J", "10", "9", "8", "7", "6", "5", "4", "3", "2"]

/-- `rankOrder.indexOf(rank)`: the index of the rank, `-1` when absent. -/
def rankIndexVal (rk : String) : Int :=
  match rankOrder.findIdx? (fun x => x == rk) with
  | some i => (i : Int)
  | none => -1

/-- `cardComparator(a, b)`: suits first (by `suitOrder` value), then ranks
(by `rankOrder` index). -/
def cardComparator (a b : String) : Int :=
  if (splitCard a).2 ≠ (splitCard b).2 then
    suitOrderVal (splitCard a).2 - suitOrderVal (splitCard b).2
  else
    rankIndexVal (splitCard a).1 - rankIndexVal (splitCard b).1

/-- The ordering induced by `cardComparator`: `a` sorts no later than `b`. -/
def cardLe (a b : String) : Prop := cardComparator a b ≤ 0

instance : DecidableRel cardLe := fun a b => Int.decLe (cardComparator a b) 0

/-- The array spread `[...playerHand]`: a fresh array with the same elements. -/
def spreadCopy (l : List α) : List α := l.foldr (fun x acc => x :: acc) []

/-- A comparator sort of cards by `cardComparator` (the source's
`.sort(cardComparator)`, realized as an insertion sort). -/
def sortCards (hand : List String) : List String := List.insertionSort cardLe hand

/-- One entry of the projected `players` array. -/
structure PlayerView where
  id : String
  name : String
  position : Nat
  isHost : Bool
  isYou : Bool
  handSize : Nat
deriving DecidableEq, Repr

/-- The response shape of `projectGameForPlayer`. -/
structure GameView where
  gameId : String
  status : String
  hostId : String
  players : List PlayerView
  hand : List String
deriving DecidableEq, Repr

/-- `game.hands[playerId] || []`: a player's stored hand, empty when absent. -/
def handFor (g : Game) (pid : String) : List String := (g.hands.lookup pid).getD []

/-- `projectGameForPlayer(game, playerId)`: public metadata for every player
(`handSize` is `game.hands[p.id]?.length || 0`), plus the requester's own hand
sorted on a spread copy. -/
def projectGameForPlayer (g : Game) (playerId : String) : GameView :=
  let playerHand := handFor g playerId
  let sortedHand := sortCards (spreadCopy playerHand)
  { gameId := g.id
    status := g.status
    hostId := g.hostId
    players := g.players.map (fun p =>
      { id := p.id
        name := p.name
        position := p.position
        isHost := p.id == g.hostId
        isYou := p.id == playerId
        handSize := (handFor g p.id).length })
    hand := sortedHand }

/-- State-passing form of `projectGameForPlayer`: the source assigns to no
field of `game` (the sort runs on the spread copy), so the post-state is the
input game itself. -/
def projectGameForPlayerSt (g : Game) (playerId : String) : GameView × Game :=
  (projectGameForPlayer g playerId, g)

/-- The `/api/game/state` handler after a successful lookup: reject requesters
that are not members, otherwise project. -/
def handleState (g : Game) (playerId : String) : Except ApiError GameView :=
  if g.players.any (fun p => p.id == playerId) then .ok (projectGameForPlayer g playerId)
  else .error .notInGame

/-! ### The comparator as a numeric key, on deck cards -/

/-- A single numeric key (13·suit + rank index) that linearizes the comparator
on the 52 deck cards. -/
def cardKey (c : String) : Int :=
  suitOrderVal (splitCard c).2 * 13 + rankIndexVal (splitCard c).1

/-- The canonical order exactly as the specification words it: primary key the
suit in the order S < H < D < C, secondary key the rank in the order
A < K < Q < J < 10 < 9 < ... < 2. -/
def specCanonicalLe (a b : String) : Prop :=
  suits.findIdx (fun x => x == (splitCard a).2) < suits.findIdx (fun x => x == (splitCard b).2) ∨
    ((splitCard a).2 = (splitCard b).2 ∧
      ranks.findIdx (fun x => x == (splitCard a).1) ≤ ranks.findIdx (fun x => x == (splitCard b).1))

instance : DecidableRel specCanonicalLe := fun a b => by
  unfold specCanonicalLe
  exact inferInstance

set_option maxRecDepth 10000 in
/-- On deck cards, the source comparator order and the specification's
canonical order both coincide with comparison of the numeric key. -/
theorem cardLe_key_bridge : ∀ a ∈ buildDeck, ∀ b ∈ buildDeck,
    (cardLe a b ↔ cardKey a ≤ cardKey b) ∧ (specCanonicalLe a b ↔ cardKey a ≤ cardKey b) := by
  decide

/-- `cardLe` is total on deck cards. -/
theorem cardLe_total_on_deck {a b : String} (ha : a ∈ buildDeck) (hb : b ∈ buildDeck) :
    cardLe a b ∨ cardLe b a := by
  rcases Int.le_total (cardKey a) (cardKey b) with h | h
  · exact Or.inl (((cardLe_key_bridge a ha b hb).1).mpr h)
  · exact Or.inr (((cardLe_key_bridge b hb a ha).1).mpr h)

/-- `cardLe` is transitive on deck cards. -/
theorem cardLe_trans_on_deck {a b c : String} (ha : a ∈ buildDeck) (hb : b ∈ buildDeck)
    (hc : c ∈ buildDeck) (hab : cardLe a b) (hbc : cardLe b c) : cardLe a c := by
  have h1 := ((cardLe_key_bridge a ha b hb).1).mp hab
  have h2 := ((cardLe_key_bridge b hb c hc).1).mp hbc
  exact ((cardLe_key_bridge a ha c hc).1).mpr (le_trans h1 h2)

/-- Ordered insertion of a deck card into a `cardLe`-sorted list of deck cards
stays sorted. -/
theorem sorted_orderedInsert_deck (a : String) (ha : a ∈ buildDeck) :
    ∀ (l : List String), (∀ x ∈ l, x ∈ buildDeck) → l.Sorted cardLe →
      (l.orderedInsert cardLe a).Sorted cardLe := by
  intro l
  induction l with
  | nil => intro _ _; simp [List.orderedInsert]
  | cons b bs ih =>
    intro hl hs
    have hb : b ∈ buildDeck := hl b (by simp)
    have hbs : ∀ x ∈ bs, x ∈ buildDeck := fun x hx => hl x (by simp [hx])
    rw [List.sorted_cons] at hs
    by_cases hab : cardLe a b
    · rw [List.orderedInsert, if_pos hab]
      rw [List.sorted_cons]
      refine ⟨?_, List.sorted_cons.mpr hs⟩
      intro x hx
      rcases List.mem_cons.mp hx with rfl | hx
      · exact hab
      · exact cardLe_trans_on_deck ha hb (hbs x hx) hab (hs.1 x hx)
    · rw [List.orderedInsert, if_neg hab]
      rw [List.sorted_cons]
      refine ⟨?_, ih hbs hs.2⟩
      intro x hx
      rcases (List.mem_orderedInsert cardLe).mp hx with rfl | hx
      · exact (cardLe_total_on_deck ha hb).resolve_left hab
      · exact hs.1 x hx

/-- The insertion sort of a list of deck cards is sorted for the comparator
order. -/
theorem sorted_sortCards_deck :
    ∀ (l : List String), (∀ x ∈ l, x ∈ buildDeck) → (sortCards l).Sorted cardLe := by
  intro l
  induction l with
  | nil => intro _; simp [sortCards]
  | cons a as ih =>
    intro hl
    have ha : a ∈ buildDeck := hl a (by simp)
    have has : ∀ x ∈ as, x ∈ buildDeck := fun x hx => hl x (by simp [hx])
    rw [sortCards, List.insertionSort]
    refine sorted_orderedInsert_deck a ha _ ?_ (ih has)
    intro x hx
    exact has x ((List.perm_insertionSort cardLe as).mem_iff.mp hx)

/-- Sorting does not invent cards: `sortCards` permutes its input. -/
theorem sortCards_perm (l : List String) : (sortCards l).Perm l :=
  List.perm_insertionSort cardLe l

/-- On lists of deck cards, sortedness in the comparator order transfers to the
specification's canonical order. -/
theorem sorted_cardLe_imp_canonical {l : List String} (hl : ∀ x ∈ l, x ∈ buildDeck)
    (hs : l.Sorted cardLe) : l.Sorted specCanonicalLe := by
  refine List.Pairwise.imp_of_mem ?_ hs
  intro a b ha hb hab
  exact ((cardLe_key_bridge a (hl a ha) b (hl b hb)).2).mpr
    (((cardLe_key_bridge a (hl a ha) b (hl b hb)).1).mp hab)

/-- The array spread builds the same list. -/
theorem spreadCopy_eq (l : List α) : spreadCopy l = l := by
  induction l with
  | nil => rfl
  | cons x xs ih =>
    show x :: spreadCopy xs = x :: xs
    rw [ih]

/-- Object assignment on a key absent from the map appends the binding. -/
theorem objSet_append (m : List (String × α)) (k : String) (v : α)
    (hk : ∀ kv ∈ m, kv.1 ≠ k) : objSet m k v = m ++ [(k, v)] := by
  unfold objSet
  have hfalse : m.any (fun kv => kv.1 == k) = false := by
    rw [List.any_eq_false]
    intro kv hkv
    simpa using hk kv hkv
  rw [hfalse]
  simp

/-- A list of length four is a four-element literal. -/
theorem length_four_eq (l : List α) (h : l.length = 4) :
    ∃ a b c d, l = [a, b, c, d] := by
  cases l with
  | nil => simp at h
  | cons a t0 =>
    cases t0 with
    | nil => simp at h
    | cons b t1 =>
      cases t1 with
      | nil => simp at h
      | cons c t2 =>
        cases t2 with
        | nil => simp at h
        | cons d t3 =>
          cases t3 with
          | nil => exact ⟨a, b, c, d, rfl⟩
          | cons e t4 => simp at h

/-- The four 13-card slices of a 52-card list reassemble the list. -/
theorem slices_flatten_eq (d : List String) (h : d.length = 52) :
    (d.drop 0).take 13 ++
      ((d.drop 13).take 13 ++ ((d.drop 26).take 13 ++ ((d.drop 39).take 13 ++ []))) = d := by
  have h39 : (d.drop 39).length ≤ 13 := by
    rw [List.length_drop, h]
  rw [List.take_of_length_le h39, List.append_nil, List.drop_zero]
  have e1 : (d.drop 26).drop 13 = d.drop 39 := by
    rw [List.drop_drop]
  have e2 : (d.drop 13).drop 13 = d.drop 26 := by
    rw [List.drop_drop]
  rw [← e1, List.take_append_drop, ← e2, List.take_append_drop, List.take_append_drop]

/-- Evaluation of the dealing loop on four players with pairwise distinct ids:
each player, in order, is bound to the next 13-card slice of the deck. -/
theorem dealHands_four (deck : List String) (p0 p1 p2 p3 : Player)
    (h01 : p0.id ≠ p1.id) (h02 : p0.id ≠ p2.id) (h03 : p0.id ≠ p3.id)
    (h12 : p1.id ≠ p2.id) (h13 : p1.id ≠ p3.id) (h23 : p2.id ≠ p3.id) :
    dealHands deck [p0, p1, p2, p3] 0 [] =
      [(p0.id, (deck.drop 0).take 13), (p1.id, (deck.drop 13).take 13),
       (p2.id, (deck.drop 26).take 13), (p3.id, (deck.drop 39).take 13)] := by
  have o0 : objSet ([] : List (String × List String)) p0.id ((deck.drop 0).take 13) =
      [(p0.id, (deck.drop 0).take 13)] :=
    objSet_append _ _ _ (by simp)
  have o1 : objSet [(p0.id, (deck.drop 0).take 13)] p1.id ((deck.drop 13).take 13) =
      [(p0.id, (deck.drop 0).take 13), (p1.id, (deck.drop 13).take 13)] :=
    objSet_append _ _ _ (by
      intro kv hkv
      simp only [List.mem_singleton] at hkv
      subst hkv
      exact h01)
  have o2 : objSet [(p0.id, (deck.drop 0).take 13), (p1.id, (deck.drop 13).take 13)]
      p2.id ((deck.drop 26).take 13) =
      [(p0.id, (deck.drop 0).take 13), (p1.id, (deck.drop 13).take 13),
       (p2.id, (deck.drop 26).take 13)] :=
    objSet_append _ _ _ (by
      intro kv hkv
      simp only [List.mem_cons, List.mem_singleton, List.not_mem_nil, or_false] at hkv
      rcases hkv with rfl | rfl
      · exact h02
      · exact h12)
  have o3 : objSet [(p0.id, (deck.drop 0).take 13), (p1.id, (deck.drop 13).take 13),
      (p2.id, (deck.drop 26).take 13)] p3.id ((deck.drop 39).take 13) =
      [(p0.id, (deck.drop 0).take 13), (p1.id, (deck.drop 13).take 13),
       (p2.id, (deck.drop 26).take 13), (p3.id, (deck.drop 39).take 13)] :=
    objSet_append _ _ _ (by
      intro kv hkv
      simp only [List.mem_cons, List.mem_singleton, List.not_mem_nil, or_false] at hkv
      rcases hkv with rfl | rfl | rfl
      · exact h03
      · exact h13
      · exact h23)
  calc dealHands deck [p0, p1, p2, p3] 0 []
      = dealHands deck [p1, p2, p3] 1
          (objSet [] p0.id ((deck.drop 0).take 13)) := rfl
    _ = dealHands deck [p1, p2, p3] 1
          [(p0.id, (deck.drop 0).take 13)] := by rw [o0]
    _ = dealHands deck [p2, p3] 2
          (objSet [(p0.id, (deck.drop 0).take 13)] p1.id ((deck.drop 13).take 13)) := rfl
    _ = dealHands deck [p2, p3] 2
          [(p0.id, (deck.drop 0).take 13), (p1.id, (deck.drop 13).take 13)] := by rw [o1]
    _ = dealHands deck [p3] 3
          (objSet [(p0.id, (deck.drop 0).take 13), (p1.id, (deck.drop 13).take 13)]
            p2.id ((deck.drop 26).take 13)) := rfl
    _ = dealHands deck [p3] 3
          [(p0.id, (deck.drop 0).take 13), (p1.id, (deck.drop 13).take 13),
           (p2.id, (deck.drop 26).take 13)] := by rw [o2]
    _ = dealHands deck [] 4
          (objSet [(p0.id, (deck.drop 0).take 13), (p1.id, (deck.drop 13).take 13),
            (p2.id, (deck.drop 26).take 13)] p3.id ((deck.drop 39).take 13)) := rfl
    _ = [(p0.id, (deck.drop 0).take 13), (p1.id, (deck.drop 13).take 13),
         (p2.id, (deck.drop 26).take 13), (p3.id, (deck.drop 39).take 13)] := by
          rw [o3]
          rfl

set_option maxRecDepth 4000 in
/-- C4: for a 4-player session (distinct ids, distinct seats), dealing hands
the players in ascending seat order the four consecutive 13-card slices of the
shuffled deck; the four hands are pairwise disjoint, 13 cards each, and
together they are exactly the 52 distinct cards of the full deck. -/
theorem claim_c4_deal_partition (g : Game) (r : Nat → Nat)
    (hlen : g.players.length = 4)
    (hids : (g.players.map Player.id).Nodup)
    (hpos : (g.players.map Player.position).Nodup) :
    ∃ p0 p1 p2 p3,
      sortPlayers g.players = [p0, p1, p2, p3] ∧
      ((sortPlayers g.players).map Player.position).Sorted (· < ·) ∧
      (deal g r).hands =
        [(p0.id, ((shuffle buildDeck r).drop 0).take 13),
         (p1.id, ((shuffle buildDeck r).drop 13).take 13),
         (p2.id, ((shuffle buildDeck r).drop 26).take 13),
         (p3.id, ((shuffle buildDeck r).drop 39).take 13)] ∧
      (∀ hd ∈ ((deal g r).hands).map Prod.snd, hd.length = 13) ∧
      (((deal g r).hands).map Prod.snd).Pairwise List.Disjoint ∧
      ((((deal g r).hands).map Prod.snd).flatten).Perm buildDeck ∧
      ((((deal g r).hands).map Prod.snd).flatten).Nodup := by
  have hshuffle : (shuffle buildDeck r).Perm buildDeck := shuffle_perm _ _
  generalize hdeck : shuffle buildDeck r = deck at hshuffle ⊢
  have hdlen : deck.length = 52 := by
    rw [hshuffle.length_eq]
    decide
  have hdnodup : deck.Nodup := hshuffle.nodup_iff.mpr (by decide)
  have hsp_perm : (sortPlayers g.players).Perm g.players := List.perm_insertionSort _ _
  have hsp_len : (sortPlayers g.players).length = 4 := by rw [hsp_perm.length_eq, hlen]
  obtain ⟨p0, p1, p2, p3, hsp⟩ := length_four_eq _ hsp_len
  have hsorted_le : ((sortPlayers g.players).map Player.position).Sorted (· ≤ ·) :=
    List.pairwise_map.mpr (List.sorted_insertionSort playerLe g.players)
  have hpos_sp : ((sortPlayers g.players).map Player.position).Nodup :=
    (hsp_perm.map Player.position).nodup_iff.mpr hpos
  have hsorted_lt : ((sortPlayers g.players).map Player.position).Sorted (· < ·) :=
    List.Sorted.lt_of_le hsorted_le hpos_sp
  have hids_sp : ((sortPlayers g.players).map Player.id).Nodup :=
    (hsp_perm.map Player.id).nodup_iff.mpr hids
  rw [hsp] at hids_sp
  simp only [List.map_cons, List.map_nil, List.nodup_cons, List.mem_cons,
    List.mem_singleton, List.not_mem_nil, or_false, not_or, List.nodup_nil, and_true,
    not_false_eq_true] at hids_sp
  obtain ⟨⟨h01, h02, h03⟩, ⟨h12, h13⟩, h23⟩ := hids_sp
  have hhands : (deal g r).hands =
      [(p0.id, (deck.drop 0).take 13),
       (p1.id, (deck.drop 13).take 13),
       (p2.id, (deck.drop 26).take 13),
       (p3.id, (deck.drop 39).take 13)] := by
    show dealHands (shuffle buildDeck r) (sortPlayers g.players) 0 [] = _
    rw [hdeck, hsp]
    exact dealHands_four deck p0 p1 p2 p3 h01 h02 h03 h12 h13 h23
  have hmap : ((deal g r).hands).map Prod.snd =
      [(deck.drop 0).take 13, (deck.drop 13).take 13,
       (deck.drop 26).take 13, (deck.drop 39).take 13] := by
    rw [hhands]
    simp only [List.map_cons, List.map_nil]
  have hflat : ((((deal g r).hands).map Prod.snd).flatten) = deck := by
    rw [hmap]
    simp only [List.flatten_cons, List.flatten_nil]
    exact slices_flatten_eq _ hdlen
  have hfnodup : ((((deal g r).hands).map Prod.snd).flatten).Nodup := by
    rw [hflat]
    exact hdnodup
  refine ⟨p0, p1, p2, p3, hsp, hsorted_lt, hhands, ?_, ?_, ?_, hfnodup⟩
  · rw [hmap]
    intro hd hhd
    simp only [List.mem_cons, List.not_mem_nil, or_false] at hhd
    rcases hhd with rfl | rfl | rfl | rfl <;>
      simp [List.length_take, List.length_drop, hdlen]
  · exact (List.nodup_flatten.mp hfnodup).2
  · rw [hflat]
    exact hshuffle

/-! ### Concrete fixtures -/

/-- A degenerate randomness oracle (every draw lands on index `0`). -/
def rngZero : Nat → Nat := fun _ => 0

def pAnn : Player := { id := "h1", name := "Ann", position := 0 }

def pBob : Player := { id := "u2", name := "Bob", position := 1 }

def pCid : Player := { id := "u3", name := "Cid", position := 2 }

def pDee : Player := { id := "u4", name := "Dee", position := 3 }

/-- A full four-player lobby hosted by Ann. -/
def gLobbyFour : Game :=
  { id := "ABCDE", hostId := "h1", status := "lobby",
    players := [pAnn, pBob, pCid, pDee], hands := [], createdAt := 0 }

/-- A three-player lobby hosted by Ann. -/
def gLobbyThree : Game := { gLobbyFour with players := [pAnn, pBob, pCid] }

/-- The four-player session after the status left the lobby (hands as yet
unassigned, to make any re-deal visible). -/
def gStartedFour : Game := { gLobbyFour with status := "started" }

/-- A started single-member session holding the specification's sorted-hand
example as Ann's stored hand. -/
def gHandExample : Game :=
  { id := "QQQQQ", hostId := "h1", status := "started", players := [pAnn],
    hands := [("h1", ["3H", "AS", "10D", "KS"])], createdAt := 0 }

/-- A two-player session; Bob's hand is `["KH"]`. -/
def gPrivA : Game :=
  { id := "ABCDE", hostId := "h1", status := "started", players := [pAnn, pBob],
    hands := [("h1", ["AS"]), ("u2", ["KH"])], createdAt := 0 }

/-- Same as `gPrivA` except Bob's hand is `["QD"]` — same size, different
contents. -/
def gPrivB : Game := { gPrivA with hands := [("h1", ["AS"]), ("u2", ["QD"])] }

/-! ### Claims -/

/-- C1 (amended): once a session's status is no longer `lobby`, every further
join attempt fails with `Game already started` and changes nothing; but the
start handler performs no status check, so a further start by the host of a
4-player session succeeds and re-deals. -/
theorem claim_c1_post_lobby (g : Game) (hst : g.status ≠ "lobby") :
    (∀ nm fid, handleJoin g nm fid = .error .alreadyStarted) ∧
    (∀ rid r, g.hostId = rid → g.players.length = 4 →
      handleStart g rid r = .ok (deal g r)) := by
  constructor
  · intro nm fid
    simp [handleJoin, hst]
  · intro rid r hh hl
    simp [handleStart, hh, hl]

/-- C1 counterexample: on a 4-player session whose status is already
`started`, a start request by the host succeeds and re-deals — the hands
object goes from empty to four entries — refuting "every further start/deal
attempt fails, leaving the session's status, players, and hands unchanged". -/
theorem claim_c1_counterexample :
    gStartedFour.status ≠ "lobby" ∧
    (handleStart gStartedFour "h1" rngZero).toOption.map (fun g => g.hands.length) = some 4 ∧
    gStartedFour.hands.length = 0 := by
  decide

/-- C1 witness: the amended claim at the started 4-player session. -/
theorem claim_c1_witness :
    handleJoin gStartedFour "Eve" "u9" = .error .alreadyStarted ∧
    handleStart gStartedFour "h1" rngZero = .ok (deal gStartedFour rngZero) :=
  ⟨(claim_c1_post_lobby gStartedFour (by decide)).1 "Eve" "u9",
   (claim_c1_post_lobby gStartedFour (by decide)).2 "h1" rngZero (by decide) (by decide)⟩

/-- C2 (amended): a successful start by the host of a 4-player session sets
the status to the string `"started"` — not `"dealt"`; the code's two status
values are `"lobby"` and `"started"`. -/
theorem claim_c2_start_sets_started (g : Game) (rid : String) (r : Nat → Nat)
    (hh : g.hostId = rid) (hl : g.players.length = 4) :
    handleStart g rid r = .ok (deal g r) ∧ (deal g r).status = "started" :=
  ⟨by simp [handleStart, hh, hl], rfl⟩

/-- C2 counterexample: after a successful start of a full lobby the status
field equals `"started"`, not the claimed `"dealt"`. -/
theorem claim_c2_counterexample :
    (handleStart gLobbyFour "h1" rngZero).toOption.map Game.status = some "started" ∧
    (handleStart gLobbyFour "h1" rngZero).toOption.map Game.status ≠ some "dealt" := by
  decide

/-- C2 witness: the amended claim at the full lobby. -/
theorem claim_c2_witness :
    handleStart gLobbyFour "h1" rngZero = .ok (deal gLobbyFour rngZero) ∧
    (deal gLobbyFour rngZero).status = "started" :=
  claim_c2_start_sets_started gLobbyFour "h1" rngZero (by decide) (by decide)

/-- `[0,1,2,3].find(pos => !existingPositions.includes(pos))` returns the
lowest free seat; with seats `0..n-1` occupied and `n < 4` that seat is `n`. -/
theorem find_free_seat (n : Nat) (hlt : n < 4) :
    ([0, 1, 2, 3].find? (fun pos => !((List.range n).contains pos))) = some n := by
  interval_cases n <;> decide

/-- Iterated joins on a lobby whose seats are exactly `0..n-1`: every join
succeeds, each joiner is appended with the next seat, and afterwards the seats
are exactly `0..n+k-1` with ids in arrival order. -/
theorem applyJoins_from_range :
    ∀ (js : List (String × String)) (g : Game),
      g.status = "lobby" →
      g.players.map Player.position = List.range g.players.length →
      g.players.length + js.length ≤ 4 →
      (∀ p ∈ js, jsTrim p.1 ≠ "") →
      ∃ g2, applyJoins g js = .ok g2 ∧
        g2.players.map Player.position = List.range (g.players.length + js.length) ∧
        g2.players.map Player.id = g.players.map Player.id ++ js.map Prod.snd ∧
        g2.status = "lobby" ∧ g2.hostId = g.hostId ∧
        g2.players.length = g.players.length + js.length := by
  intro js
  induction js with
  | nil =>
    intro g hst hpos _ _
    exact ⟨g, rfl, by simpa using hpos, by simp, hst, rfl, by simp⟩
  | cons j rest ih =>
    intro g hst hpos hlen hnm
    obtain ⟨nm, fid⟩ := j
    have hlt : g.players.length < 4 := by
      simp only [List.length_cons] at hlen
      omega
    have hname : jsTrim nm ≠ "" := hnm (nm, fid) (by simp)
    have hnle : ¬ (4 ≤ g.players.length) := by omega
    have hjoin : handleJoin g nm fid = .ok (joinGame g (jsTrim nm) fid) := by
      simp [handleJoin, hst, hname, hnle]
    have hjg : joinGame g (jsTrim nm) fid =
        ({ g with players := g.players ++ [⟨fid, jsTrim nm, g.players.length⟩] },
          ⟨fid, jsTrim nm, g.players.length⟩) := by
      simp only [joinGame]
      rw [hpos, find_free_seat _ hlt]
      rfl
    have hpos2 : (g.players ++ [(⟨fid, jsTrim nm, g.players.length⟩ : Player)]).map
        Player.position = List.range (g.players.length + 1) := by
      rw [List.map_append, hpos, List.range_succ]
      rfl
    have hlen2 : (g.players ++ [(⟨fid, jsTrim nm, g.players.length⟩ : Player)]).length
        = g.players.length + 1 := by simp
    obtain ⟨gf, h1, h2, h3, h4, h5, h6⟩ :=
      ih { g with players := g.players ++ [⟨fid, jsTrim nm, g.players.length⟩] }
        hst (by rw [hlen2]; exact hpos2)
        (by rw [hlen2]; simp only [List.length_cons] at hlen; omega)
        (fun p hp => hnm p (by simp [hp]))
    refine ⟨gf, ?_, ?_, ?_, h4, h5, ?_⟩
    · show (match handleJoin g nm fid with
        | .ok gp => applyJoins gp.1 rest
        | .error e => .error e) = .ok gf
      rw [hjoin, hjg]
      exact h1
    · rw [h2, hlen2]
      congr 1
      simp only [List.length_cons]
      omega
    · rw [h3, List.map_append]
      simp
    · rw [h6, hlen2]
      simp only [List.length_cons]
      omega

/-- C4 witness: the partition statement at the full Ann/Bob/Cid/Dee lobby. -/
theorem claim_c4_witness :
    ∃ p0 p1 p2 p3,
      sortPlayers gLobbyFour.players = [p0, p1, p2, p3] ∧
      ((sortPlayers gLobbyFour.players).map Player.position).Sorted (· < ·) ∧
      (deal gLobbyFour rngZero).hands =
        [(p0.id, ((shuffle buildDeck rngZero).drop 0).take 13),
         (p1.id, ((shuffle buildDeck rngZero).drop 13).take 13),
         (p2.id, ((shuffle buildDeck rngZero).drop 26).take 13),
         (p3.id, ((shuffle buildDeck rngZero).drop 39).take 13)] ∧
      (∀ hd ∈ ((deal gLobbyFour rngZero).hands).map Prod.snd, hd.length = 13) ∧
      (((deal gLobbyFour rngZero).hands).map Prod.snd).Pairwise List.Disjoint ∧
      ((((deal gLobbyFour rngZero).hands).map Prod.snd).flatten).Perm buildDeck ∧
      ((((deal gLobbyFour rngZero).hands).map Prod.snd).flatten).Nodup :=
  claim_c4_deal_partition gLobbyFour rngZero (by decide) (by decide) (by decide)

/-- C5: on a fresh session the creator holds seat 0, and every successful join
assigns the lowest unoccupied seat of `{0,1,2,3}`, so after `k ≤ 3` joins the
ids in arrival order are creator followed by the joiners and the seats are
exactly `0..k` in that order. -/
theorem claim_c5_seat_assignment (hostName hid code : String) (now : Nat)
    (js : List (String × String)) (hlen : js.length ≤ 3)
    (hnm : ∀ p ∈ js, jsTrim p.1 ≠ "") :
    ∃ g2, applyJoins (createGame hostName hid code now).1 js = .ok g2 ∧
      g2.players.map Player.position = List.range (js.length + 1) ∧
      g2.players.map Player.id = hid :: js.map Prod.snd ∧
      g2.hostId = hid ∧ g2.status = "lobby" := by
  obtain ⟨g2, h1, h2, h3, h4, h5, _⟩ :=
    applyJoins_from_range js (createGame hostName hid code now).1 rfl
      (by show [0] = List.range 1; rfl)
      (by show 1 + js.length ≤ 4; omega)
      hnm
  refine ⟨g2, h1, ?_, ?_, h5, h4⟩
  · rw [h2]
    congr 1
    show 1 + js.length = js.length + 1
    omega
  · rw [h3]
    rfl

/-- C5 witness: Ann creates, Bob, Cid, Dee join — seats 0,1,2,3 in arrival
order, Ann at seat 0. -/
theorem claim_c5_witness :
    ∃ g2, applyJoins (createGame "Ann" "h1" "ABCDE" 0).1
        [("Bob", "u2"), ("Cid", "u3"), ("Dee", "u4")] = .ok g2 ∧
      g2.players.map Player.position = List.range 4 ∧
      g2.players.map Player.id = ["h1", "u2", "u3", "u4"] ∧
      g2.hostId = "h1" ∧ g2.status = "lobby" :=
  claim_c5_seat_assignment "Ann" "h1" "ABCDE" 0
    [("Bob", "u2"), ("Cid", "u3"), ("Dee", "u4")] (by decide) (by decide)

/-- C6 (amended): only the join endpoint normalizes the supplied code
(trim + uppercase) before lookup; the start and state endpoints look the raw
code up verbatim, so a code differing from the stored code only in letter case
resolves the session for join but fails with `Game not found` for start and
state. -/
theorem claim_c6_lookup (g : Game) (raw : String)
    (hnorm : normalizeCode raw = g.id) (hne : raw ≠ g.id) :
    lookupJoinCode [(g.id, g)] raw = some g ∧
    lookupStartCode [(g.id, g)] raw = none ∧
    lookupStateCode [(g.id, g)] raw = none := by
  unfold lookupJoinCode lookupStartCode lookupStateCode
  rw [hnorm]
  simp only [List.lookup]
  rw [beq_self_eq_true]
  rw [beq_eq_false_iff_ne.mpr hne]
  exact ⟨rfl, rfl, rfl⟩

/-- C6 counterexample: with stored code `"ABCDE"`, the raw code `"abcde"`
(differing only in case) resolves for join but returns `none` — `Game not
found` — for both start and state, refuting "case-insensitive in every
operation that takes a code". -/
theorem claim_c6_counterexample :
    normalizeCode "abcde" = "ABCDE" ∧
    lookupJoinCode [("ABCDE", gLobbyFour)] "abcde" = some gLobbyFour ∧
    lookupStartCode [("ABCDE", gLobbyFour)] "abcde" = none ∧
    lookupStateCode [("ABCDE", gLobbyFour)] "abcde" = none := by
  decide

/-- C6 witness: the amended claim at the concrete store. -/
theorem claim_c6_witness :
    lookupJoinCode [(gLobbyFour.id, gLobbyFour)] "abcde" = some gLobbyFour ∧
    lookupStartCode [(gLobbyFour.id, gLobbyFour)] "abcde" = none ∧
    lookupStateCode [(gLobbyFour.id, gLobbyFour)] "abcde" = none :=
  claim_c6_lookup gLobbyFour "abcde" (by decide) (by decide)

/-- C8: start fails with `Only the host can start the game` whenever the
requester is not the host; with the host requesting, it fails with
`Need exactly 4 players to start` whenever the count is not 4; otherwise it
performs the deal.  The failure branches return before any mutation, so the
session is unchanged there. -/
theorem claim_c8_start_gating (g : Game) (rid : String) (r : Nat → Nat) :
    (g.hostId ≠ rid → handleStart g rid r = .error .notHost) ∧
    (g.hostId = rid → g.players.length ≠ 4 →
      handleStart g rid r = .error .needFourPlayers) ∧
    (g.hostId = rid → g.players.length = 4 →
      handleStart g rid r = .ok (deal g r)) := by
  refine ⟨fun h => ?_, fun h hl => ?_, fun h hl => ?_⟩ <;> simp [handleStart, h, *]

/-- C8 witness: all three branches at concrete sessions. -/
theorem claim_c8_witness :
    handleStart gLobbyFour "u2" rngZero = .error .notHost ∧
    handleStart gLobbyThree "h1" rngZero = .error .needFourPlayers ∧
    handleStart gLobbyFour "h1" rngZero = .ok (deal gLobbyFour rngZero) :=
  ⟨(claim_c8_start_gating gLobbyFour "u2" rngZero).1 (by decide),
   (claim_c8_start_gating gLobbyThree "h1" rngZero).2.1 (by decide) (by decide),
   (claim_c8_start_gating gLobbyFour "h1" rngZero).2.2 (by decide) (by decide)⟩

/-- C9: encoding any of the 52 rank-by-suit combinations as the rank string
concatenated with the suit letter and then decoding with `splitCard` (last
character as suit, prefix as rank) returns the original pair. -/
theorem claim_c9_card_roundtrip :
    ∀ rk ∈ ranks, ∀ s ∈ suits, splitCard (rk ++ s) = (rk, s) := by
  decide

/-- C9 witness: `"10H"` decodes back to rank `10`, suit `H`. -/
theorem claim_c9_witness : splitCard ("10" ++ "H") = ("10", "H") :=
  claim_c9_card_roundtrip "10" (by decide) "H" (by decide)

/-- C3: noninterference of the projection — two session states that agree on
everything except the hand contents (not sizes) of players other than the
requester project to identical views, so no other player's cards can leak
through a view (only id, name, seat, isHost, isYou and handSize appear for
them). -/
theorem claim_c3_noninterference (g1 g2 : Game) (pid : String)
    (hid : g1.id = g2.id) (hst : g1.status = g2.status) (hhost : g1.hostId = g2.hostId)
    (hpl : g1.players = g2.players)
    (hsz : ∀ q : String, (handFor g1 q).length = (handFor g2 q).length)
    (hown : handFor g1 pid = handFor g2 pid) :
    projectGameForPlayer g1 pid = projectGameForPlayer g2 pid := by
  simp only [projectGameForPlayer]
  rw [hid, hst, hhost, hpl, hown]
  congr 1
  apply List.map_congr_left
  intro p _
  simp [hsz p.id]

/-- C3 witness: two sessions differing only in Bob's hand contents (same size)
give Ann identical views. -/
theorem claim_c3_witness :
    projectGameForPlayer gPrivA "h1" = projectGameForPlayer gPrivB "h1" :=
  claim_c3_noninterference gPrivA gPrivB "h1" rfl rfl rfl rfl
    (fun q => by
      have e1 : handFor gPrivA q = (List.lookup q [("h1", ["AS"]), ("u2", ["KH"])]).getD [] := rfl
      have e2 : handFor gPrivB q = (List.lookup q [("h1", ["AS"]), ("u2", ["QD"])]).getD [] := rfl
      rw [e1, e2]
      simp only [List.lookup]
      cases q == "h1" <;> cases q == "u2" <;> rfl)
    (by decide)

/-- C7 (amended): a member's dealt hand projects as a permutation of the
stored hand that is sorted by the canonical comparator (suit S < H < D < C,
then rank A < K < Q < J < 10 < ... < 2); in particular the hand
`["3H","AS","10D","KS"]` projects in the order `["AS","KS","3H","10D"]` (the
claimed order `["KS","AS","10D","3H"]` contradicts the comparator). -/
theorem claim_c7_hand_sorted (g : Game) (pid : String)
    (hvalid : ∀ c ∈ handFor g pid, c ∈ buildDeck) :
    ((projectGameForPlayer g pid).hand).Perm (handFor g pid) ∧
    ((projectGameForPlayer g pid).hand).Sorted specCanonicalLe ∧
    sortCards (spreadCopy ["3H", "AS", "10D", "KS"]) = ["AS", "KS", "3H", "10D"] := by
  have hhand : (projectGameForPlayer g pid).hand = sortCards (handFor g pid) := by
    simp only [projectGameForPlayer]
    rw [spreadCopy_eq]
  rw [hhand]
  refine ⟨sortCards_perm _, ?_, by decide⟩
  exact sorted_cardLe_imp_canonical
    (fun x hx => hvalid x ((sortCards_perm _).subset hx))
    (sorted_sortCards_deck _ hvalid)

/-- C7 counterexample: the projection of the specification's example hand is
`["AS","KS","3H","10D"]`, not the claimed `["KS","AS","10D","3H"]` (within the
S suit rank A sorts before K, and suit H sorts before suit D). -/
theorem claim_c7_counterexample :
    (projectGameForPlayer gHandExample "h1").hand = ["AS", "KS", "3H", "10D"] ∧
    (projectGameForPlayer gHandExample "h1").hand ≠ ["KS", "AS", "10D", "3H"] := by
  decide

/-- C7 witness: the amended claim at the example session. -/
theorem claim_c7_witness :
    ((projectGameForPlayer gHandExample "h1").hand).Perm (handFor gHandExample "h1") ∧
    ((projectGameForPlayer gHandExample "h1").hand).Sorted specCanonicalLe ∧
    sortCards (spreadCopy ["3H", "AS", "10D", "KS"]) = ["AS", "KS", "3H", "10D"] :=
  claim_c7_hand_sorted gHandExample "h1" (by decide)

/-- C10: projection never mutates the session — in state-passing form the
post-state's code, status, host id, players and stored hands (in deal order)
all equal their pre-state values, the returned view is the pure projection,
and the sort input is the spread copy of the requester's hand. -/
theorem claim_c10_projection_pure (g : Game) (pid : String) :
    (projectGameForPlayerSt g pid).2.id = g.id ∧
    (projectGameForPlayerSt g pid).2.status = g.status ∧
    (projectGameForPlayerSt g pid).2.hostId = g.hostId ∧
    (projectGameForPlayerSt g pid).2.players = g.players ∧
    (projectGameForPlayerSt g pid).2.hands = g.hands ∧
    (projectGameForPlayerSt g pid).1 = projectGameForPlayer g pid ∧
    spreadCopy (handFor g pid) = handFor g pid :=
  ⟨rfl, rfl, rfl, rfl, rfl, rfl, spreadCopy_eq _⟩

end CardGame
